import Mathlib

/-!
# Verification of the NaNo PC Parts GPU deal-scoring pipeline

Shallow embedding of the deal-scoring core of `nano_pc_parts.py`:
the deal rater (`OpenRouterClient.generate_deal_rating`), the price
normalizer (`GPUScraper._extract_price`), batch deduplication
(`GPUScraper._remove_duplicates` and the selection stage of
`GPUScraper.process_listings`), GPU identification
(`GPUScraper._extract_gpu_from_listing`), market-price match selection
(`GPUScraper._find_best_match_with_ai`) and the final sort of
`process_listings`.

Modelling conventions:
* Python strings are modelled as `List Char`; the Python functions
  `str.strip`, `str.upper`, `str.lower`, `str.split(',')` are embedded
  character by character over their ASCII behaviour.
* Python floats are modelled as exact rationals `ℚ`.
* Python `None`-or-number-or-string values are the inductive `PyVal`.
* The external completion service is a parameter: a response is
  `Option (List Char)` (`none` = request failed / empty response).
* A Python function that can raise an uncaught exception is modelled
  with `Except String` (the error carries the exception class name).
-/

namespace NanoPC

/-- ASCII code of a character. -/
def code (c : Char) : Nat := c.toNat

/-- Embedding of the regex class `\w` (ASCII fragment): letters, digits,
underscore.  Used for the word boundaries `\b` in the rating regex. -/
def isWordChar (c : Char) : Bool :=
  (65 ≤ code c && code c ≤ 90) || (97 ≤ code c && code c ≤ 122) ||
  (48 ≤ code c && code c ≤ 57) || code c == 95

/-- Embedding of the regex class `\d` / `str.isdigit` (ASCII fragment). -/
def isDigitChar (c : Char) : Bool := 48 ≤ code c && code c ≤ 57

/-- Whitespace stripped by Python `str.strip()` (ASCII fragment). -/
def isSpaceChar (c : Char) : Bool :=
  code c == 32 || code c == 9 || code c == 10 || code c == 13 ||
  code c == 11 || code c == 12

/-- Python `str.strip()`. -/
def pyTrim (l : List Char) : List Char :=
  ((l.dropWhile isSpaceChar).reverse.dropWhile isSpaceChar).reverse

/-- Python `str.upper()` on one character (ASCII fragment). -/
def upperChar (c : Char) : Char :=
  if 97 ≤ code c && code c ≤ 122 then Char.ofNat (code c - 32) else c

/-- Python `str.lower()` on one character (ASCII fragment). -/
def lowerChar (c : Char) : Char :=
  if 65 ≤ code c && code c ≤ 90 then Char.ofNat (code c + 32) else c

/-- Python `str.upper()`. -/
def pyUpper (l : List Char) : List Char := l.map upperChar

/-- Python `str.lower()`. -/
def pyLower (l : List Char) : List Char := l.map lowerChar

/-- Python `str.split(',')`. -/
def splitComma : List Char → List (List Char)
  | [] => [[]]
  | c :: cs =>
    if code c == 44 then [] :: splitComma cs
    else
      match splitComma cs with
      | [] => [[c]]
      | p :: ps => (c :: p) :: ps

/-- Python `str.isdigit()` (ASCII fragment): non-empty and all digits. -/
def pyIsDigit (l : List Char) : Bool := !l.isEmpty && l.all isDigitChar

/-! ## The rating regex `\b([1-9]|10)\b`

`re.findall(r'\b([1-9]|10)\b', response)` followed by taking the first
match is embedded as a left-to-right scan that keeps track of whether the
previous character was a word character (for the left boundary `\b`). -/

/-- Right word boundary: the next character (if any) is not a word
character. -/
def boundaryOk : List Char → Bool
  | [] => true
  | c :: _ => !isWordChar c

/-- Does the list start with the character `0`? (used for the `10`
alternative of the regex). -/
def headIsZero : List Char → Bool
  | [] => false
  | c :: _ => code c == 48

/-- Scan for the first match of `\b([1-9]|10)\b`.  The boolean records
whether the previous character was a word character; a match can only
start at a left word boundary.  The alternation tries the single digit
first and then `10`, exactly as the regex engine does. -/
def findRatingAux : Bool → List Char → Option Nat
  | _, [] => none
  | prevWord, c :: cs =>
    if prevWord then findRatingAux (isWordChar c) cs
    else if 49 ≤ code c && code c ≤ 57 && boundaryOk cs then
      some (code c - 48)
    else if code c == 49 && headIsZero cs && boundaryOk cs.tail then
      some 10
    else findRatingAux (isWordChar c) cs

/-- The value of the first match of `\b([1-9]|10)\b` in a response, i.e.
`int(re.findall(r'\b([1-9]|10)\b', response)[0])` when a match exists. -/
def firstRating (l : List Char) : Option Nat := findRatingAux false l

/-! ### Token-level specification of the same parse

The spec speaks of "the first integer token 1–10 in the response".  We
formalise that independently: split the text into maximal runs of word
characters and take the first run that is literally one of the numerals
`1`, …, `9`, `10`; `firstRating_eq_specTok` proves the regex embedding
equal to this description. -/

/-- Split into maximal runs of word characters (accumulator form). -/
def wordRunsAux : List Char → List Char → List (List Char)
  | cur, [] => if cur.isEmpty then [] else [cur.reverse]
  | cur, c :: cs =>
    if isWordChar c then wordRunsAux (c :: cur) cs
    else if cur.isEmpty then wordRunsAux [] cs
    else cur.reverse :: wordRunsAux [] cs

/-- The maximal word-character runs of a text. -/
def wordRuns (l : List Char) : List (List Char) := wordRunsAux [] l

/-- The numeric value of a token when it is literally one of `1` … `9`,
`10`. -/
def tokenVal : List Char → Option Nat
  | [c] => if 49 ≤ code c && code c ≤ 57 then some (code c - 48) else none
  | [c, d] => if code c == 49 && code d == 48 then some 10 else none
  | _ => none

/-- The first integer token in [1,10] of a text, by the spec's words. -/
def specTok (l : List Char) : Option Nat := (wordRuns l).findSome? tokenVal

/-! ## Python values and price parsing -/

/-- A Python value as far as the pipeline's price fields are concerned:
`None`, a number (int/float, modelled exactly as a rational) or a
string. -/
inductive PyVal where
  | none
  | num (q : ℚ)
  | str (s : List Char)
deriving DecidableEq

/-- Python truthiness of a `PyVal` (`bool(x)`). -/
def pyTruthy : PyVal → Bool
  | .none => false
  | .num q => q != 0
  | .str s => !s.isEmpty

/-- Value of a list of decimal digits. -/
def digitsToNat (l : List Char) : Nat :=
  l.foldl (fun a c => a * 10 + (code c - 48)) 0

/-- Value of `ip.fp` as a rational. -/
def decimalVal (ip fp : List Char) : ℚ :=
  (digitsToNat ip : ℚ) + (digitsToNat fp : ℚ) / (10 : ℚ) ^ fp.length

/-- Body of Python `float(s)` after sign handling: `digits`, `digits.`,
`digits.digits` or `.digits`. -/
def pyFloatBody (l : List Char) : Option ℚ :=
  let ip := l.takeWhile isDigitChar
  match l.dropWhile isDigitChar with
  | [] => if ip.isEmpty then Option.none else some ((digitsToNat ip : ℚ))
  | c :: t =>
    if code c == 46 && t.all isDigitChar && !(ip.isEmpty && t.isEmpty) then
      some (decimalVal ip t)
    else Option.none

/-- Python `float(s)` on the plain-decimal fragment (optional sign,
integer and fractional digits); returns `none` where `float` raises
`ValueError`. -/
def pyFloat? (l : List Char) : Option ℚ :=
  match pyTrim l with
  | [] => Option.none
  | c :: t =>
    if code c == 45 then (pyFloatBody t).map Neg.neg
    else if code c == 43 then pyFloatBody t
    else pyFloatBody (c :: t)

/-! ### `GPUScraper._extract_price` (nano_pc_parts.py lines 369–382)

`re.findall(r'[\d,]+\.?\d*', price_data.replace(',', '.'))` and
`float(numbers[0])`. -/

/-- The regex class `[\d,]`. -/
def isNumClass (c : Char) : Bool := isDigitChar c || code c == 44

/-- Python `price_data.replace(',', '.')`. -/
def replaceCommaDot (l : List Char) : List Char :=
  l.map fun c => if code c == 44 then '.' else c

/-- The greedy match of `[\d,]+\.?\d*` starting at the head of `l`
(the head is known to be in `[\d,]`). -/
def numMatchAt (l : List Char) : List Char :=
  let r1 := l.takeWhile isNumClass
  match l.dropWhile isNumClass with
  | c :: t => if code c == 46 then r1 ++ '.' :: t.takeWhile isDigitChar else r1
  | [] => r1

/-- First match of `[\d,]+\.?\d*` in `l`, scanning left to right. -/
def findNumMatch : List Char → Option (List Char)
  | [] => Option.none
  | c :: cs => if isNumClass c then some (numMatchAt (c :: cs)) else findNumMatch cs

/-- `GPUScraper._extract_price`: numbers pass through, strings go through
the regex (after replacing `,` by `.`), anything else — including
`None` and unparsable strings — yields `0.0`. -/
def extract_price : PyVal → ℚ
  | .num q => q
  | .str s =>
    match findNumMatch (replaceCommaDot s) with
    | some m => (pyFloat? m).getD 0
    | Option.none => 0
  | .none => 0

/-! ## `OpenRouterClient.generate_deal_rating` (lines 152–223) -/

/-- Lines 157–162: a string listing price is converted with `float`,
falling back to `0` on `ValueError`/`TypeError`. -/
def coercePrice : PyVal → PyVal
  | .str s =>
    match pyFloat? s with
    | some q => .num q
    | Option.none => .num 0
  | v => v

/-- The deterministic fallback banding of lines 204–223, applied to the
price-difference percentage. -/
def fallbackBand (d : ℚ) : Int :=
  if d ≤ -30 then 10
  else if d ≤ -20 then 9
  else if d ≤ -10 then 8
  else if d ≤ -5 then 7
  else if d ≤ 0 then 6
  else if d ≤ 5 then 5
  else if d ≤ 10 then 4
  else if d ≤ 20 then 3
  else if d ≤ 30 then 2
  else 1

/-- Lines 194–199: the first `\b([1-9]|10)\b` match of the completion
response (`none` when the request failed or nothing matched). -/
def parsedRating (resp : Option (List Char)) : Option Nat :=
  resp.bind firstRating

/-- `OpenRouterClient.generate_deal_rating`.  `resp` is the completion
service's response (`none` = failure).  The uncaught `TypeError` that
line 168 raises when the market price is a non-empty string is modelled
as `Except.error`. -/
def generate_deal_rating (listingPrice marketPrice : PyVal)
    (resp : Option (List Char)) : Except String Int :=
  let lp := coercePrice listingPrice
  if !pyTruthy marketPrice || !pyTruthy lp then .ok 5
  else
    match lp, marketPrice with
    | .num L, .num M =>
      let d := (L - M) / M * 100
      match parsedRating resp with
      | some n => .ok (max 1 (min 10 (n : Int)))
      | Option.none => .ok (fallbackBand d)
    | _, _ => .error "TypeError"

/-! ## Listings, deduplication and the orchestrator's selection
(`_remove_duplicates` lines 384–395, `process_listings` lines 597–624) -/

/-- A normalized listing record (the fields the claims touch). -/
structure Listing where
  source : List Char
  title : List Char
  price : PyVal
  description : List Char
deriving DecidableEq

/-- The dedup key: `listing.get('title', '').lower().strip()`. -/
def dedupKey (l : Listing) : List Char := pyTrim (pyLower l.title)

/-- The loop of `_remove_duplicates` with its `seen_titles` set. -/
def dedupAux (seen : List (List Char)) : List Listing → List Listing
  | [] => []
  | x :: rest =>
    let t := dedupKey x
    if !t.isEmpty && !seen.contains t then x :: dedupAux (t :: seen) rest
    else dedupAux seen rest

/-- `GPUScraper._remove_duplicates`. -/
def remove_duplicates (l : List Listing) : List Listing := dedupAux [] l

/-- A source fetcher's tail (lines 297–299 and 361–363): deduplicate,
then cap at `limit`. -/
def fetch_dedup (raws : List Listing) (limit : Nat) : List Listing :=
  (remove_duplicates raws).take limit

/-- The batch that enters per-listing processing in `process_listings`
(lines 603–624): both sources are fetched and deduplicated separately,
concatenated, and the first 10 per source tag are selected.  No
cross-source deduplication happens. -/
def process_selection (vintedRaw lbcRaw : List Listing) : List Listing :=
  let vinted_listings := fetch_dedup vintedRaw 100
  let leboncoin_listings := fetch_dedup lbcRaw 100
  let all_listings := vinted_listings ++ leboncoin_listings
  let vinted_test := (all_listings.filter fun l => l.source == "vinted".data).take 10
  let leboncoin_test := (all_listings.filter fun l => l.source == "leboncoin".data).take 10
  vinted_test ++ leboncoin_test

/-! ## `GPUScraper._extract_gpu_from_listing` (lines 469–535) -/

/-- Outcome of parsing one completion response inside the retry loop. -/
inductive ParseRes where
  | noneLit
  | valid (s : List Char)
  | bad
deriving DecidableEq

/-- Lines 510–514: brand tokens starting with `GEFORCE` or `QUADRO`
(after upper-casing and stripping) are normalized to `GTX`. -/
def normBrand (b : List Char) : List Char :=
  if "GEFORCE".data.isPrefixOf b then "GTX".data
  else if "QUADRO".data.isPrefixOf b then "GTX".data
  else b

/-- Lines 496–523: parse one response.  `noneLit` = the literal `NONE`
(return `None` at once); `valid s` = a validated `BRAND,MODEL` pair
(return it); `bad` = anything else (the loop continues). -/
def parseResp (r : List Char) : ParseRes :=
  let line := pyTrim r
  if pyUpper line == "NONE".data then .noneLit
  else if line.contains ',' then
    let parts := splitComma line
    if parts.length == 2 then
      let brand := normBrand (pyTrim (pyUpper (parts.getD 0 [])))
      let model := pyTrim (pyUpper (parts.getD 1 []))
      if (brand == "RTX".data || brand == "GTX".data || brand == "RX".data)
          && pyIsDigit model && (model.length == 3 || model.length == 4) then
        .valid (brand ++ ',' :: model)
      else .bad
    else .bad
  else .bad

/-- The retry loop of lines 491–535.  `responses attempt` is what the
completion service returns on that attempt (`none` = failed/empty).
Returns the result, the number of completion calls made, and the list
of attempt indices after which `time.sleep(1)` ran. -/
def extractAux (responses : Nat → Option (List Char)) :
    Nat → Nat → Option (List Char) × Nat × List Nat
  | attempt, 0 => (Option.none, attempt, [])
  | attempt, fuel + 1 =>
    match responses attempt with
    | some r =>
      match parseResp r with
      | .noneLit => (Option.none, attempt + 1, [])
      | .valid s => (some s, attempt + 1, [])
      | .bad => extractAux responses (attempt + 1) fuel
    | Option.none =>
      let res := extractAux responses (attempt + 1) fuel
      (res.1, res.2.1, (if attempt < 2 then [attempt] else []) ++ res.2.2)

/-- `GPUScraper._extract_gpu_from_listing`: `for attempt in range(3)`. -/
def extract_gpu_from_listing (responses : Nat → Option (List Char)) :
    Option (List Char) × Nat × List Nat :=
  extractAux responses 0 3

/-! ## `GPUScraper._find_best_match_with_ai` (lines 537–595) -/

/-- One market-price candidate from the price-comparison tool. -/
structure MarketItem where
  raw_text : List Char
  price : PyVal
  url : List Char
deriving DecidableEq

/-- `_find_best_match_with_ai`: the first 10 candidates are offered to
the completion service; the first `\b([1-9]|10)\b` token of the response
selects a candidate when in range, otherwise the first candidate is the
fallback; an empty candidate list yields `None`. -/
def find_best_match_with_ai (price_data : List MarketItem)
    (resp : Option (List Char)) : Option MarketItem :=
  let price_options := price_data.take 10
  if price_options.isEmpty then Option.none
  else
    let viaAI : Option MarketItem :=
      match resp with
      | some r =>
        match firstRating r with
        | some n =>
          if n - 1 < price_options.length then price_data.get? (n - 1)
          else Option.none
        | Option.none => Option.none
      | Option.none => Option.none
    match viaAI with
    | some item => some item
    | Option.none => price_data.head?

/-! ## The final sort (`process_listings` lines 685–686)

`final_results.sort(key=lambda x: x['rating'], reverse=True)` — Python's
`list.sort` is a stable sort, so the result is the unique permutation
that is weakly descending on `rating` and keeps equal-rated entries in
input order.  We embed it as a stable insertion sort computing exactly
that permutation. -/

/-- The result record, as far as the sort is concerned. -/
structure ScoredDeal where
  title : List Char
  rating : Int
deriving DecidableEq

/-- Stable descending insertion: `x` is placed before the first element
whose rating is not larger, so earlier input wins ties. -/
def insertDesc (x : ScoredDeal) : List ScoredDeal → List ScoredDeal
  | [] => [x]
  | y :: ys => if x.rating < y.rating then y :: insertDesc x ys else x :: y :: ys

/-- The stable descending-by-rating sort of `final_results`. -/
def sort_results : List ScoredDeal → List ScoredDeal
  | [] => []
  | x :: xs => insertDesc x (sort_results xs)

/-- The rater's contract: a value was produced (no exception) and it lies
in `[1, 10]`. -/
def okInRange (e : Except String Int) : Prop :=
  match e with
  | .ok n => 1 ≤ n ∧ n ≤ 10
  | .error _ => False

/-! ## Concrete fixtures used by counterexamples and witnesses -/

/-- A Vinted listing titled "RTX 3070 8GB like new". -/
def vListing : Listing :=
  ⟨"vinted".data, "RTX 3070 8GB like new".data, .num 100, []⟩

/-- A Leboncoin listing with the same title. -/
def lListing : Listing :=
  ⟨"leboncoin".data, "RTX 3070 8GB like new".data, .num 90, []⟩

/-- A completion service that answers a syntactically valid but
rule-invalid pair on the first attempt and a valid pair on the second. -/
def c6resps : Nat → Option (List Char) := fun i =>
  if i = 0 then some "ABC,12".data
  else if i = 1 then some "RTX,3070".data
  else Option.none

/-- Two market-price candidates. -/
def itemA : MarketItem := ⟨"RTX 3070 8GB".data, .num 250, []⟩

/-- See `itemA`. -/
def itemB : MarketItem := ⟨"RTX 3070 Ti".data, .num 300, []⟩

/-- Scored deals with ratings 5, 8, 5 for the sort-stability example. -/
def dealA : ScoredDeal := ⟨"a".data, 5⟩

/-- See `dealA`. -/
def dealB : ScoredDeal := ⟨"b".data, 8⟩

/-- See `dealA`. -/
def dealC : ScoredDeal := ⟨"c".data, 5⟩

/-! # Theorems -/

/-! ## The regex scan agrees with the token description -/

theorem isWordChar_of_digit {c : Char} (h : 49 ≤ code c ∧ code c ≤ 57) :
    isWordChar c = true := by
  simp only [isWordChar, Bool.or_eq_true, Bool.and_eq_true, decide_eq_true_eq,
    beq_iff_eq]
  omega

theorem isWordChar_of_zero {c : Char} (h : code c = 48) : isWordChar c = true := by
  simp only [isWordChar, Bool.or_eq_true, Bool.and_eq_true, decide_eq_true_eq,
    beq_iff_eq]
  omega

theorem takeWhile_eq_nil_iff_boundary (cs : List Char) :
    cs.takeWhile isWordChar = [] ↔ boundaryOk cs = true := by
  cases cs with
  | nil => simp [boundaryOk]
  | cons d t =>
    simp only [List.takeWhile_cons, boundaryOk, Bool.not_eq_true']
    by_cases h : isWordChar d <;> simp [h]

theorem wordRuns_cons_not {c : Char} (cs : List Char) (h : isWordChar c = false) :
    wordRuns (c :: cs) = wordRuns cs := by
  simp [wordRuns, wordRunsAux, h]

theorem wordRunsAux_ne (cs : List Char) : ∀ cur : List Char, cur ≠ [] →
    wordRunsAux cur cs =
      (cur.reverse ++ cs.takeWhile isWordChar) ::
        wordRuns (cs.dropWhile isWordChar) := by
  induction cs with
  | nil =>
    intro cur h
    simp [wordRunsAux, wordRuns, List.isEmpty_iff, h]
  | cons c cs ih =>
    intro cur h
    by_cases hw : isWordChar c
    · rw [wordRunsAux, if_pos hw, ih (c :: cur) (by simp)]
      simp [List.takeWhile_cons, List.dropWhile_cons, hw]
    · have hwf : isWordChar c = false := by simp [hw]
      have hcur : cur.isEmpty = false := by
        cases cur with
        | nil => exact absurd rfl h
        | cons a b => rfl
      rw [wordRunsAux, if_neg (by simp [hwf]), if_neg (by simp [hcur])]
      rw [List.takeWhile_cons, List.dropWhile_cons, hwf]
      simp only [Bool.false_eq_true, if_false]
      rw [wordRuns_cons_not cs hwf]
      simp [wordRuns]

theorem wordRuns_cons_word {c : Char} (cs : List Char) (h : isWordChar c = true) :
    wordRuns (c :: cs) =
      (c :: cs.takeWhile isWordChar) :: wordRuns (cs.dropWhile isWordChar) := by
  rw [wordRuns, wordRunsAux, if_pos h, wordRunsAux_ne cs [c] (by simp)]
  simp

theorem findRatingAux_true_cons (c : Char) (cs : List Char) :
    findRatingAux true (c :: cs) = findRatingAux (isWordChar c) cs := rfl

theorem findRatingAux_false_cons (c : Char) (cs : List Char) :
    findRatingAux false (c :: cs) =
      (if (49 ≤ code c && code c ≤ 57 && boundaryOk cs) = true then
        some (code c - 48)
       else if (code c == 49 && headIsZero cs && boundaryOk cs.tail) = true then
        some 10
       else findRatingAux (isWordChar c) cs) := rfl

theorem findRating_spec (l : List Char) :
    findRatingAux false l = specTok l ∧
    findRatingAux true l = specTok (l.dropWhile isWordChar) := by
  induction l with
  | nil =>
    constructor <;> simp [findRatingAux, specTok, wordRuns, wordRunsAux]
  | cons c cs ih =>
    obtain ⟨ihA, ihB⟩ := ih
    have hB : findRatingAux true (c :: cs) =
        specTok ((c :: cs).dropWhile isWordChar) := by
      rw [findRatingAux_true_cons, List.dropWhile_cons]
      by_cases hw : isWordChar c
      · rw [hw, ihB]
        simp [hw]
      · have hwf : isWordChar c = false := by simp [hw]
        rw [hwf, ihA]
        simp [specTok, wordRuns_cons_not cs hwf]
    refine ⟨?_, hB⟩
    rw [findRatingAux_false_cons]
    by_cases hdig : (49 ≤ code c ∧ code c ≤ 57) ∧ boundaryOk cs = true
    · -- the single-digit alternative matches at c
      have hw : isWordChar c = true := isWordChar_of_digit hdig.1
      have htk : cs.takeWhile isWordChar = [] :=
        (takeWhile_eq_nil_iff_boundary cs).mpr hdig.2
      rw [if_pos (by
        simp only [Bool.and_eq_true, decide_eq_true_eq]
        exact ⟨hdig.1, hdig.2⟩)]
      simp [specTok, wordRuns_cons_word cs hw, htk, List.findSome?_cons,
        tokenVal, hdig.1.1, hdig.1.2]
    · rw [if_neg (by
        simp only [Bool.and_eq_true, decide_eq_true_eq]
        exact hdig)]
      by_cases h10 : (code c = 49 ∧ headIsZero cs = true) ∧
          boundaryOk cs.tail = true
      · -- the `10` alternative matches at c
        rw [if_pos (by
          simp only [Bool.and_eq_true, beq_iff_eq]
          exact ⟨⟨h10.1.1, h10.1.2⟩, h10.2⟩)]
        obtain ⟨⟨h49, hz⟩, hbt⟩ := h10
        cases cs with
        | nil => simp [headIsZero] at hz
        | cons c2 cs' =>
          have hz2 : code c2 = 48 := by
            simpa [headIsZero] using hz
          have hw : isWordChar c = true := isWordChar_of_digit (by omega)
          have hw2 : isWordChar c2 = true := isWordChar_of_zero hz2
          have htk' : cs'.takeWhile isWordChar = [] :=
            (takeWhile_eq_nil_iff_boundary cs').mpr hbt
          simp [specTok, wordRuns_cons_word (c2 :: cs') hw,
            List.takeWhile_cons, hw2, htk', List.findSome?_cons, tokenVal,
            h49, hz2]
      · rw [if_neg (by
          simp only [Bool.and_eq_true, beq_iff_eq]
          rintro ⟨⟨h1, h2⟩, h3⟩
          exact h10 ⟨⟨h1, h2⟩, h3⟩)]
        by_cases hw : isWordChar c
        · -- skip into the word run starting at c: its token is not 1..10
          rw [hw, ihB]
          have htok : tokenVal (c :: cs.takeWhile isWordChar) = Option.none := by
            cases cs with
            | nil =>
              have hnd : ¬ (49 ≤ code c ∧ code c ≤ 57) := fun hd =>
                hdig ⟨hd, rfl⟩
              simp only [List.takeWhile_nil, tokenVal, Bool.and_eq_true,
                decide_eq_true_eq]
              rw [if_neg hnd]
            | cons c2 cs' =>
              by_cases hw2 : isWordChar c2
              · rw [List.takeWhile_cons, hw2]
                simp only [if_true]
                cases htk : cs'.takeWhile isWordChar with
                | nil =>
                  have hb : boundaryOk cs' = true :=
                    (takeWhile_eq_nil_iff_boundary cs').mp htk
                  have hn10 : ¬ (code c = 49 ∧ code c2 = 48) := by
                    rintro ⟨h1, h2⟩
                    exact h10 ⟨⟨h1, by simp [headIsZero, h2]⟩, hb⟩
                  simp only [tokenVal, Bool.and_eq_true, beq_iff_eq]
                  rw [if_neg hn10]
                | cons d t => simp [tokenVal]
              · have hwf2 : isWordChar c2 = false := by simp [hw2]
                rw [List.takeWhile_cons, hwf2]
                simp only [Bool.false_eq_true, if_false]
                have hbd : boundaryOk (c2 :: cs') = true := by
                  simp [boundaryOk, hwf2]
                have hnd : ¬ (49 ≤ code c ∧ code c ≤ 57) := fun hd =>
                  hdig ⟨hd, hbd⟩
                simp only [tokenVal, Bool.and_eq_true, decide_eq_true_eq]
                rw [if_neg hnd]
          simp [specTok, wordRuns_cons_word cs hw, List.findSome?_cons, htok]
        · have hwf : isWordChar c = false := by simp [hw]
          rw [hwf, ihA]
          simp [specTok, wordRuns_cons_not cs hwf]

/-- The regex embedding computes exactly the first integer token in
[1,10] of the text. -/
theorem firstRating_eq_specTok (l : List Char) : firstRating l = specTok l :=
  (findRating_spec l).1

/-! ## Facts about the deal rater -/

theorem coercePrice_cases (lp : PyVal) :
    coercePrice lp = PyVal.none ∨ ∃ L, coercePrice lp = PyVal.num L := by
  cases lp with
  | none => exact Or.inl rfl
  | num q => exact Or.inr ⟨q, rfl⟩
  | str s =>
    cases h : pyFloat? s with
    | none => exact Or.inr ⟨0, by simp [coercePrice, h]⟩
    | some q => exact Or.inr ⟨q, by simp [coercePrice, h]⟩

theorem generate_deal_rating_fallback (lp : PyVal) (L M : ℚ)
    (resp : Option (List Char)) (hlp : coercePrice lp = .num L)
    (hL : L ≠ 0) (hM : M ≠ 0) (hp : parsedRating resp = Option.none) :
    generate_deal_rating lp (.num M) resp =
      .ok (fallbackBand ((L - M) / M * 100)) := by
  simp [generate_deal_rating, hlp, pyTruthy, hp, hL, hM]

theorem generate_deal_rating_parsed (lp : PyVal) (L M : ℚ)
    (resp : Option (List Char)) (n : Nat) (hlp : coercePrice lp = .num L)
    (hL : L ≠ 0) (hM : M ≠ 0) (hp : parsedRating resp = some n) :
    generate_deal_rating lp (.num M) resp =
      .ok (max 1 (min 10 (n : Int))) := by
  simp [generate_deal_rating, hlp, pyTruthy, hp, hL, hM]

theorem generate_deal_rating_falsy (lp cp : PyVal) (resp : Option (List Char))
    (h : pyTruthy cp = false ∨ pyTruthy (coercePrice lp) = false) :
    generate_deal_rating lp cp resp = .ok 5 := by
  rcases h with h | h <;> simp [generate_deal_rating, h]

set_option maxHeartbeats 1600000 in
theorem fallbackBand_spec (d : ℚ) :
    (d ≤ -30 → fallbackBand d = 10) ∧
    (-30 < d → d ≤ -20 → fallbackBand d = 9) ∧
    (-20 < d → d ≤ -10 → fallbackBand d = 8) ∧
    (-10 < d → d ≤ -5 → fallbackBand d = 7) ∧
    (-5 < d → d ≤ 0 → fallbackBand d = 6) ∧
    (0 < d → d ≤ 5 → fallbackBand d = 5) ∧
    (5 < d → d ≤ 10 → fallbackBand d = 4) ∧
    (10 < d → d ≤ 20 → fallbackBand d = 3) ∧
    (20 < d → d ≤ 30 → fallbackBand d = 2) ∧
    (30 < d → fallbackBand d = 1) := by
  unfold fallbackBand
  refine ⟨fun h => ?_, fun h1 h2 => ?_, fun h1 h2 => ?_, fun h1 h2 => ?_,
    fun h1 h2 => ?_, fun h1 h2 => ?_, fun h1 h2 => ?_, fun h1 h2 => ?_,
    fun h1 h2 => ?_, fun h => ?_⟩ <;>
  (split_ifs <;> first | rfl | linarith)

theorem fallbackBand_range (d : ℚ) :
    1 ≤ fallbackBand d ∧ fallbackBand d ≤ 10 := by
  unfold fallbackBand
  split_ifs <;> norm_num

/-! ## Claim C1 -/

/-- **C1** (confirmed): for listing price `L > 0` and market price
`M > 0`, when the completion response yields no parsable rating (no
`1`–`10` token), `generate_deal_rating` returns the fixed banding of
`diffPct = (L - M) / M * 100` given by the claim's interval table; in
particular `rate(65,100) = 10`, `rate(95,100) = 7`, `rate(110,100) = 4`. -/
theorem claim_C1 :
    (∀ (L M : ℚ) (resp : Option (List Char)), 0 < L → 0 < M →
      parsedRating resp = Option.none →
      ∀ r : Int, generate_deal_rating (.num L) (.num M) resp = .ok r →
        (let d := (L - M) / M * 100
         (d ≤ -30 → r = 10) ∧ (-30 < d → d ≤ -20 → r = 9) ∧
         (-20 < d → d ≤ -10 → r = 8) ∧ (-10 < d → d ≤ -5 → r = 7) ∧
         (-5 < d → d ≤ 0 → r = 6) ∧ (0 < d → d ≤ 5 → r = 5) ∧
         (5 < d → d ≤ 10 → r = 4) ∧ (10 < d → d ≤ 20 → r = 3) ∧
         (20 < d → d ≤ 30 → r = 2) ∧ (30 < d → r = 1))) ∧
    generate_deal_rating (.num 65) (.num 100) Option.none = .ok 10 ∧
    generate_deal_rating (.num 95) (.num 100) Option.none = .ok 7 ∧
    generate_deal_rating (.num 110) (.num 100) Option.none = .ok 4 := by
  refine ⟨?_, ?_, ?_, ?_⟩
  · intro L M resp hL hM hp r hr
    rw [generate_deal_rating_fallback (.num L) L M resp rfl
      (ne_of_gt hL) (ne_of_gt hM) hp] at hr
    injection hr with hr
    subst hr
    exact fallbackBand_spec _
  · norm_num [generate_deal_rating, coercePrice, pyTruthy, parsedRating,
      fallbackBand]
  · norm_num [generate_deal_rating, coercePrice, pyTruthy, parsedRating,
      fallbackBand]
  · norm_num [generate_deal_rating, coercePrice, pyTruthy, parsedRating,
      fallbackBand]

/-- Witness for C1 at `L = 65`, `M = 100`, failed completion call. -/
theorem claim_C1_witness :
    (0 : ℚ) < 65 ∧ (0 : ℚ) < 100 ∧
    (((65 : ℚ) - 100) / 100 * 100 ≤ -30 → (10 : Int) = 10) :=
  ⟨by norm_num, by norm_num,
    (claim_C1.1 65 100 Option.none (by norm_num) (by norm_num) rfl 10
      claim_C1.2.1).1⟩

/-! ## Claim C4 -/

/-- **C4** is refuted: a negative listing price is *not* mapped to the
neutral rating 5; the code only special-cases falsy (absent/zero) prices,
so `rate(-50, 100)` runs the banding and returns 10. -/
theorem claim_C4_counterexample :
    generate_deal_rating (.num (-50)) (.num 100) Option.none = .ok 10 ∧
    (10 : Int) ≠ 5 := by
  constructor
  · norm_num [generate_deal_rating, coercePrice, pyTruthy, parsedRating,
      fallbackBand]
  · norm_num

/-- **C4** (corrected): `generate_deal_rating` returns exactly 5 when the
listing price or the market price is absent (`None`) or zero; negative
prices are not special-cased and flow into the normal computation. -/
theorem claim_C4_amended (lp cp : PyVal) (resp : Option (List Char))
    (h : lp = PyVal.none ∨ lp = PyVal.num 0 ∨
      cp = PyVal.none ∨ cp = PyVal.num 0) :
    generate_deal_rating lp cp resp = .ok 5 := by
  rcases h with rfl | rfl | rfl | rfl
  · exact generate_deal_rating_falsy PyVal.none cp resp (Or.inr rfl)
  · exact generate_deal_rating_falsy (PyVal.num 0) cp resp
      (Or.inr (by simp [coercePrice, pyTruthy]))
  · exact generate_deal_rating_falsy lp PyVal.none resp (Or.inl rfl)
  · exact generate_deal_rating_falsy lp (PyVal.num 0) resp
      (Or.inl (by simp [pyTruthy]))

/-- Witness for C4 (amended) at the spec's example `rate(None, 100)`. -/
theorem claim_C4_witness :
    generate_deal_rating PyVal.none (PyVal.num 100) Option.none = .ok 5 :=
  claim_C4_amended PyVal.none (PyVal.num 100) Option.none (Or.inl rfl)

/-! ## Claim C3 -/

/-- **C3** is refuted for string-typed market prices: the subtraction
`listing_price - current_price` on line 168 is outside any handler, so a
non-empty string market price raises an uncaught `TypeError` instead of
returning a rating. -/
theorem claim_C3_counterexample :
    generate_deal_rating (.num 50) (.str "abc".data) Option.none =
      .error "TypeError" ∧
    ¬ okInRange (generate_deal_rating (.num 50) (.str "abc".data)
      Option.none) := by
  constructor
  · simp [generate_deal_rating, coercePrice, pyTruthy]
  · simp [generate_deal_rating, coercePrice, pyTruthy, okInRange]

/-- **C3** (corrected): for every listing price (null, zero, negative,
numeric or string-typed) and every null or numeric market price — the
only types the caller ever passes — and every completion response or
failure, `generate_deal_rating` terminates without an exception and
returns an integer in `[1, 10]`.  (A non-empty string market price
instead raises, see the counterexample.) -/
theorem claim_C3_amended (lp cp : PyVal) (resp : Option (List Char))
    (h : cp = PyVal.none ∨ (∃ q, cp = PyVal.num q) ∨ cp = PyVal.str []) :
    okInRange (generate_deal_rating lp cp resp) := by
  have h5 : okInRange (Except.ok (5 : Int) : Except String Int) := by
    exact ⟨by norm_num, by norm_num⟩
  rcases coercePrice_cases lp with hlp | ⟨L, hlp⟩
  · rw [generate_deal_rating_falsy lp cp resp (Or.inr (by rw [hlp]; rfl))]
    exact h5
  · by_cases hL : L = 0
    · rw [generate_deal_rating_falsy lp cp resp
        (Or.inr (by rw [hlp, hL]; simp [pyTruthy]))]
      exact h5
    · rcases h with rfl | ⟨q, rfl⟩ | rfl
      · rw [generate_deal_rating_falsy lp PyVal.none resp (Or.inl rfl)]
        exact h5
      · by_cases hq : q = 0
        · subst hq
          rw [generate_deal_rating_falsy lp (PyVal.num 0) resp
            (Or.inl (by simp [pyTruthy]))]
          exact h5
        · cases hp : parsedRating resp with
          | none =>
            rw [generate_deal_rating_fallback lp L q resp hlp hL hq hp]
            exact fallbackBand_range _
          | some n =>
            rw [generate_deal_rating_parsed lp L q resp n hlp hL hq hp]
            exact ⟨le_max_left _ _, max_le (by norm_num) (min_le_left _ _)⟩
      · rw [generate_deal_rating_falsy lp (PyVal.str []) resp
          (Or.inl (by simp [pyTruthy]))]
        exact h5

/-- Witness for C3 (amended) with a negative listing price and a numeric
market price. -/
theorem claim_C3_witness :
    okInRange (generate_deal_rating (.num (-3)) (.num 100) Option.none) :=
  claim_C3_amended (.num (-3)) (.num 100) Option.none
    (Or.inr (Or.inl ⟨100, rfl⟩))

/-! ## Claim C8 -/

theorem findNumMatch_none_of_noDigit (s : List Char)
    (h : ∀ c ∈ s, isDigitChar c = false) :
    findNumMatch (replaceCommaDot s) = Option.none := by
  induction s with
  | nil => simp [replaceCommaDot, findNumMatch]
  | cons c cs ih =>
    have hc : isDigitChar c = false := h c (by simp)
    have hcs : ∀ x ∈ cs, isDigitChar x = false := fun x hx => h x (by simp [hx])
    by_cases h44 : code c = 44
    · simp only [replaceCommaDot, List.map_cons]
      rw [if_pos (by simp [h44])]
      have : isNumClass '.' = false := by decide
      rw [findNumMatch, if_neg (by simp [this])]
      simpa [replaceCommaDot] using ih hcs
    · simp only [replaceCommaDot, List.map_cons]
      rw [if_neg (by simp [h44])]
      have : isNumClass c = false := by
        simp [isNumClass, hc, h44]
      rw [findNumMatch, if_neg (by simp [this])]
      simpa [replaceCommaDot] using ih hcs

/-- **C8** is refuted: a string from which no decimal can be parsed is
normalized to `0.0` — a `float`, not `null` — so an unknown price is
*not* distinguishable from a free listing. -/
theorem claim_C8_counterexample :
    extract_price (.str "abc".data) = 0 ∧
    generate_deal_rating (.str "abc".data) (.num 100) Option.none = .ok 5 := by
  refine ⟨by decide, ?_⟩
  exact generate_deal_rating_falsy (.str "abc".data) (.num 100) Option.none
    (Or.inr (by decide))

/-- **C8** (corrected): price strings are parsed to a decimal (the first
numeric fragment after `,` is replaced by `.`); a string with no digits
at all — in particular any unparsable price — is normalized to `0.0`
(zero), not to null, so "unknown" collapses onto "free". -/
theorem claim_C8_amended :
    (∀ s : List Char, (∀ c ∈ s, isDigitChar c = false) →
      extract_price (.str s) = 0) ∧
    extract_price (.str "219,99 €".data) = 21999 / 100 ∧
    extract_price (.str "65".data) = 65 := by
  refine ⟨?_, ?_, ?_⟩
  · intro s hs
    simp [extract_price, findNumMatch_none_of_noDigit s hs]
  · have h1 : findNumMatch (replaceCommaDot "219,99 €".data) =
        some "219.99".data := by decide
    have h2 : pyFloat? "219.99".data =
        some (decimalVal "219".data "99".data) := rfl
    have h3 : digitsToNat "219".data = 219 := by decide
    have h4 : digitsToNat "99".data = 99 := by decide
    simp only [extract_price, h1, h2, Option.getD_some]
    rw [decimalVal, h3, h4]
    norm_num
  · have h1 : findNumMatch (replaceCommaDot "65".data) =
        some "65".data := by decide
    have h2 : pyFloat? "65".data = some ((digitsToNat "65".data : ℚ)) := rfl
    have h3 : digitsToNat "65".data = 65 := by decide
    simp only [extract_price, h1, h2, h3, Option.getD_some]
    norm_num

/-- Witness for C8 (amended) on the digit-free string `"N/A"`. -/
theorem claim_C8_witness : extract_price (.str "N/A".data) = 0 :=
  claim_C8_amended.1 "N/A".data (by decide)

/-! ## Facts about deduplication -/

theorem dedupAux_mem {x : Listing} :
    ∀ (l : List Listing) (seen : List (List Char)), x ∈ dedupAux seen l →
      dedupKey x ∉ seen ∧ dedupKey x ≠ [] ∧
        l.find? (fun y => dedupKey y == dedupKey x) = some x := by
  intro l
  induction l with
  | nil =>
    intro seen hx
    simp [dedupAux] at hx
  | cons a l ih =>
    intro seen hx
    simp only [dedupAux] at hx
    split at hx
    next hk =>
      have hka : dedupKey a ≠ [] ∧ dedupKey a ∉ seen := by
        simp only [Bool.and_eq_true, Bool.not_eq_true'] at hk
        constructor
        · simpa [List.isEmpty_iff] using hk.1
        · simpa using hk.2
      rcases List.mem_cons.mp hx with rfl | hx'
      · exact ⟨hka.2, hka.1, List.find?_cons_of_pos _ (by simp)⟩
      · obtain ⟨hseen, hne, hfind⟩ := ih _ hx'
        have hxa : dedupKey a ≠ dedupKey x := fun hEq =>
          hseen (by simp [← hEq])
        refine ⟨fun hmem => hseen (List.mem_cons_of_mem _ hmem), hne, ?_⟩
        rw [List.find?_cons_of_neg _ (by simp [hxa]), hfind]
    next hk =>
      obtain ⟨hseen, hne, hfind⟩ := ih _ hx
      have hxa : dedupKey a ≠ dedupKey x := by
        intro hEq
        simp only [Bool.and_eq_true, Bool.not_eq_true', not_and_or,
          Bool.not_eq_false] at hk
        rcases hk with hk | hk
        · exact hne (by rw [← hEq]; simpa [List.isEmpty_iff] using hk)
        · exact hseen (by rw [← hEq]; simpa using hk)
      refine ⟨hseen, hne, ?_⟩
      rw [List.find?_cons_of_neg _ (by simp [hxa]), hfind]

theorem dedupAux_pairwise :
    ∀ (l : List Listing) (seen : List (List Char)),
      (dedupAux seen l).Pairwise (fun a b => dedupKey a ≠ dedupKey b) := by
  intro l
  induction l with
  | nil => intro seen; simp [dedupAux]
  | cons a l ih =>
    intro seen
    simp only [dedupAux]
    split
    next =>
      refine List.Pairwise.cons ?_ (ih _)
      intro b hb hEq
      exact (dedupAux_mem _ _ hb).1 (by simp [← hEq])
    next => exact ih _

theorem remove_duplicates_spec (batch : List Listing) :
    (remove_duplicates batch).Pairwise (fun a b => dedupKey a ≠ dedupKey b) ∧
    ∀ x ∈ remove_duplicates batch,
      batch.find? (fun y => dedupKey y == dedupKey x) = some x :=
  ⟨dedupAux_pairwise batch [], fun _ hx => (dedupAux_mem batch [] hx).2.2⟩

/-! ## Claim C2 -/

/-- **C2** is refuted: deduplication happens inside each source fetcher
only; `process_listings` concatenates the two sources without any
cross-source deduplication, so two listings with the same title, one per
source, both enter per-listing processing. -/
theorem claim_C2_counterexample :
    process_selection [vListing] [lListing] = [vListing, lListing] ∧
    dedupKey vListing = dedupKey lListing ∧ vListing ≠ lListing := by
  refine ⟨by decide, by decide, by decide⟩

/-- **C2** (corrected): each source's batch is deduplicated separately —
within one source no two retained listings share a lower-cased trimmed
title and the first occurrence (in iteration order) is the one retained —
but the combined batch entering per-listing processing is not
deduplicated across sources: two equal-titled entries can both enter
when they carry different source tags. -/
theorem claim_C2_amended :
    (∀ batch : List Listing,
      (remove_duplicates batch).Pairwise
        (fun a b => dedupKey a ≠ dedupKey b) ∧
      ∀ x ∈ remove_duplicates batch,
        batch.find? (fun y => dedupKey y == dedupKey x) = some x) ∧
    ∀ v l : List Listing,
      (∀ x ∈ v, x.source = "vinted".data) →
      (∀ x ∈ l, x.source = "leboncoin".data) →
      (process_selection v l).Pairwise
        (fun a b => dedupKey a = dedupKey b → a.source ≠ b.source) := by
  refine ⟨remove_duplicates_spec, ?_⟩
  intro v l hv hl
  have hdv : ∀ x ∈ fetch_dedup v 100, x.source = "vinted".data := by
    intro x hx
    have hx1 : x ∈ remove_duplicates v := List.mem_of_mem_take hx
    exact hv x (List.mem_of_find?_eq_some ((remove_duplicates_spec v).2 x hx1))
  have hdl : ∀ x ∈ fetch_dedup l 100, x.source = "leboncoin".data := by
    intro x hx
    have hx1 : x ∈ remove_duplicates l := List.mem_of_mem_take hx
    exact hl x (List.mem_of_find?_eq_some ((remove_duplicates_spec l).2 x hx1))
  have hf1 : (fetch_dedup v 100 ++ fetch_dedup l 100).filter
      (fun x => x.source == "vinted".data) = fetch_dedup v 100 := by
    rw [List.filter_append,
      List.filter_eq_self.mpr (fun x hx => by simp [hdv x hx]),
      List.filter_eq_nil_iff.mpr (fun x hx => by rw [hdl x hx]; decide),
      List.append_nil]
  have hf2 : (fetch_dedup v 100 ++ fetch_dedup l 100).filter
      (fun x => x.source == "leboncoin".data) = fetch_dedup l 100 := by
    rw [List.filter_append,
      List.filter_eq_nil_iff.mpr (fun x hx => by rw [hdv x hx]; decide),
      List.filter_eq_self.mpr (fun x hx => by simp [hdl x hx]),
      List.nil_append]
  have hps : process_selection v l =
      (fetch_dedup v 100).take 10 ++ (fetch_dedup l 100).take 10 := by
    unfold process_selection
    dsimp only
    rw [hf1, hf2]
  rw [hps]
  refine List.pairwise_append.mpr ⟨?_, ?_, ?_⟩
  · refine List.Pairwise.imp (fun hne hEq => absurd hEq hne) ?_
    exact (remove_duplicates_spec v).1.sublist
      ((List.take_sublist _ _).trans (List.take_sublist _ _))
  · refine List.Pairwise.imp (fun hne hEq => absurd hEq hne) ?_
    exact (remove_duplicates_spec l).1.sublist
      ((List.take_sublist _ _).trans (List.take_sublist _ _))
  · intro a ha b hb _
    rw [hdv a (List.mem_of_mem_take ha), hdl b (List.mem_of_mem_take hb)]
    decide

/-- Witness for C2 (amended) on the two concrete one-listing sources. -/
theorem claim_C2_witness :
    (process_selection [vListing] [lListing]).Pairwise
      (fun a b => dedupKey a = dedupKey b → a.source ≠ b.source) :=
  claim_C2_amended.2 [vListing] [lListing] (by decide) (by decide)

/-! ## Facts about the GPU-identity parser and its retry loop -/

set_option maxHeartbeats 1600000 in
theorem parseResp_valid_shape {r s : List Char} (h : parseResp r = .valid s) :
    ∃ brand model : List Char,
      s = brand ++ ',' :: model ∧
      (brand = "RTX".data ∨ brand = "GTX".data ∨ brand = "RX".data) ∧
      (model.length = 3 ∨ model.length = 4) ∧ model ≠ [] ∧
      ∀ c ∈ model, isDigitChar c = true := by
  unfold parseResp at h
  dsimp only at h
  split_ifs at h with h1 h2 h3 h4
  simp only [Bool.and_eq_true, Bool.or_eq_true, beq_iff_eq] at h4
  injection h with h
  refine ⟨_, _, h.symm, ?_, h4.2, ?_, ?_⟩
  · tauto
  · have := h4.1.2
    simp only [pyIsDigit, Bool.and_eq_true, Bool.not_eq_true'] at this
    simpa [List.isEmpty_iff] using this.1
  · have := h4.1.2
    simp only [pyIsDigit, Bool.and_eq_true, List.all_eq_true] at this
    exact this.2

theorem extractAux_some (responses : Nat → Option (List Char)) :
    ∀ (fuel att : Nat) (s : List Char),
      (extractAux responses att fuel).1 = some s →
      ∃ (i : Nat) (r : List Char),
        responses i = some r ∧ parseResp r = .valid s := by
  intro fuel
  induction fuel with
  | zero =>
    intro att s h
    simp [extractAux] at h
  | succ fuel ih =>
    intro att s h
    rw [extractAux] at h
    cases hr : responses att with
    | none =>
      simp only [hr] at h
      exact ih (att + 1) s h
    | some r =>
      simp only [hr] at h
      cases hp : parseResp r with
      | noneLit => simp [hp] at h
      | valid s' =>
        simp only [hp] at h
        simp only [Option.some.injEq] at h
        exact ⟨att, r, hr, by rw [hp, h]⟩
      | bad =>
        simp only [hp] at h
        exact ih (att + 1) s h

theorem extractAux_calls_le (responses : Nat → Option (List Char)) :
    ∀ fuel att, (extractAux responses att fuel).2.1 ≤ att + fuel := by
  intro fuel
  induction fuel with
  | zero => intro att; simp [extractAux]
  | succ fuel ih =>
    intro att
    rw [extractAux]
    cases hr : responses att with
    | none =>
      dsimp only
      have := ih (att + 1)
      omega
    | some r =>
      dsimp only
      cases hp : parseResp r with
      | noneLit => dsimp only; omega
      | valid s => dsimp only; omega
      | bad =>
        dsimp only
        have := ih (att + 1)
        omega

theorem extractAux_calls_ge_att (responses : Nat → Option (List Char)) :
    ∀ fuel att, att ≤ (extractAux responses att fuel).2.1 := by
  intro fuel
  induction fuel with
  | zero => intro att; simp [extractAux]
  | succ fuel ih =>
    intro att
    rw [extractAux]
    cases hr : responses att with
    | none =>
      dsimp only
      have := ih (att + 1)
      omega
    | some r =>
      dsimp only
      cases hp : parseResp r with
      | noneLit => dsimp only; omega
      | valid s => dsimp only; omega
      | bad =>
        dsimp only
        have := ih (att + 1)
        omega

theorem extractAux_calls_ge (responses : Nat → Option (List Char)) :
    ∀ fuel att, 0 < fuel →
      att + 1 ≤ (extractAux responses att fuel).2.1 := by
  intro fuel
  cases fuel with
  | zero => intro att h; omega
  | succ fuel =>
    intro att _
    rw [extractAux]
    cases hr : responses att with
    | none =>
      dsimp only
      have := extractAux_calls_ge_att responses fuel (att + 1)
      omega
    | some r =>
      dsimp only
      cases hp : parseResp r with
      | noneLit => dsimp only; omega
      | valid s => dsimp only; omega
      | bad =>
        dsimp only
        have := extractAux_calls_ge_att responses fuel (att + 1)
        omega

theorem extractAux_sleeps (responses : Nat → Option (List Char)) :
    ∀ fuel att i, i ∈ (extractAux responses att fuel).2.2 →
      responses i = Option.none ∧ i < 2 := by
  intro fuel
  induction fuel with
  | zero =>
    intro att i h
    simp [extractAux] at h
  | succ fuel ih =>
    intro att i h
    rw [extractAux] at h
    cases hr : responses att with
    | none =>
      rw [hr] at h
      dsimp only at h
      rw [List.mem_append] at h
      rcases h with h | h
      · by_cases hatt : att < 2
        · rw [if_pos hatt] at h
          simp only [List.mem_singleton] at h
          subst h
          exact ⟨hr, hatt⟩
        · rw [if_neg hatt] at h
          simp at h
      · exact ih (att + 1) i h
    | some r =>
      rw [hr] at h
      dsimp only at h
      cases hp : parseResp r with
      | noneLit => rw [hp] at h; simp at h
      | valid s => rw [hp] at h; simp at h
      | bad =>
        rw [hp] at h
        dsimp only at h
        exact ih (att + 1) i h

/-! ## Claim C5 -/

/-- **C5** (confirmed): whenever `_extract_gpu_from_listing` returns a
non-`None` identity, it is a `BRAND,MODEL` string whose brand is one of
RTX, GTX, RX and whose model is exactly 3 or 4 decimal digits; malformed
responses can never surface as a malformed identity. -/
theorem claim_C5 (responses : Nat → Option (List Char)) (s : List Char)
    (h : (extract_gpu_from_listing responses).1 = some s) :
    ∃ brand model : List Char,
      s = brand ++ ',' :: model ∧
      (brand = "RTX".data ∨ brand = "GTX".data ∨ brand = "RX".data) ∧
      (model.length = 3 ∨ model.length = 4) ∧ model ≠ [] ∧
      ∀ c ∈ model, isDigitChar c = true := by
  obtain ⟨i, r, _, hpr⟩ := extractAux_some responses 3 0 s h
  exact parseResp_valid_shape hpr

/-- Witness for C5: the completion service answers `RTX,3070`. -/
theorem claim_C5_witness :
    ∃ brand model : List Char,
      "RTX,3070".data = brand ++ ',' :: model ∧
      (brand = "RTX".data ∨ brand = "GTX".data ∨ brand = "RX".data) ∧
      (model.length = 3 ∨ model.length = 4) ∧ model ≠ [] ∧
      ∀ c ∈ model, isDigitChar c = true :=
  claim_C5 (fun i => if i = 0 then some "RTX,3070".data else Option.none)
    "RTX,3070".data (by decide)

/-! ## Claim C6 -/

/-- **C6** is refuted on its no-retry clause: `"ABC,12"` is a
syntactically valid comma-separated pair whose brand and model both fail
validation, yet the loop continues — a second completion call is made
(2 calls in total) and its valid answer is returned instead of `None`. -/
theorem claim_C6_counterexample :
    parseResp "ABC,12".data = .bad ∧
    ("ABC,12".data.contains ',') = true ∧
    (splitComma (pyTrim "ABC,12".data)).length = 2 ∧
    extract_gpu_from_listing c6resps = (some "RTX,3070".data, 2, []) := by
  refine ⟨by decide, by decide, by decide, by decide⟩

/-- **C6** (corrected): the loop makes at most 3 completion calls and
sleeps only after an empty/failed response (and never after the last
attempt); but a syntactically valid, rule-invalid answer does *not* end
the loop — the next attempt is made immediately (so at least 2 calls
happen), and `None` is only produced by a literal `NONE` answer or after
all 3 attempts fail to validate. -/
theorem claim_C6_amended :
    (∀ responses : Nat → Option (List Char),
      (extract_gpu_from_listing responses).2.1 ≤ 3) ∧
    (∀ (responses : Nat → Option (List Char)) (i : Nat),
      i ∈ (extract_gpu_from_listing responses).2.2 →
      responses i = Option.none ∧ i < 2) ∧
    (∀ (responses : Nat → Option (List Char)) (r : List Char),
      responses 0 = some r → parseResp r = .bad →
      extract_gpu_from_listing responses = extractAux responses 1 2 ∧
      2 ≤ (extract_gpu_from_listing responses).2.1) := by
  refine ⟨fun responses => by simpa using extractAux_calls_le responses 3 0,
    fun responses i h => extractAux_sleeps responses 3 0 i h, ?_⟩
  intro responses r h0 hbad
  have hstep : extract_gpu_from_listing responses = extractAux responses 1 2 := by
    unfold extract_gpu_from_listing
    rw [extractAux]
    simp only [h0, hbad]
  refine ⟨hstep, ?_⟩
  rw [hstep]
  exact extractAux_calls_ge responses 2 1 (by norm_num)

/-- Witness for C6 (amended): with `c6resps` the rule-invalid first
answer leads to a second call. -/
theorem claim_C6_witness :
    extract_gpu_from_listing c6resps = extractAux c6resps 1 2 ∧
    2 ≤ (extract_gpu_from_listing c6resps).2.1 :=
  claim_C6_amended.2.2 c6resps "ABC,12".data (by decide) (by decide)

/-! ## Claim C10 -/

/-- **C10** (confirmed): a brand token starting with `QUADRO` (after
upper-casing and trimming) is normalized to `GTX` before validation,
exactly like a `GEFORCE`-prefixed token; in particular the response
`"Quadro,2000"` yields the identity `GTX,2000`, not `None`. -/
theorem claim_C10 :
    (∀ b : List Char, "QUADRO".data.isPrefixOf b = true →
      normBrand b = "GTX".data ∧
      ∀ b' : List Char, "GEFORCE".data.isPrefixOf b' = true →
        normBrand b = normBrand b') ∧
    extract_gpu_from_listing
        (fun i => if i = 0 then some "Quadro,2000".data else Option.none) =
      (some "GTX,2000".data, 1, []) := by
  constructor
  · intro b hb
    have hnb : normBrand b = "GTX".data := by
      unfold normBrand
      by_cases h1 : ("GEFORCE".data.isPrefixOf b) = true
      · rw [if_pos h1]
      · rw [if_neg h1, if_pos hb]
    refine ⟨hnb, fun b' hb' => ?_⟩
    rw [hnb]
    unfold normBrand
    rw [if_pos hb']
  · decide

/-- Witness for C10 at the brand token `QUADRO P2000`. -/
theorem claim_C10_witness :
    normBrand "QUADRO P2000".data = "GTX".data :=
  (claim_C10.1 "QUADRO P2000".data (by decide)).1

/-! ## Facts about the match-index parse -/

theorem tokenVal_range : ∀ {run : List Char} {n : Nat},
    tokenVal run = some n → 1 ≤ n ∧ n ≤ 10 := by
  intro run n h
  rcases run with _ | ⟨c, _ | ⟨d, _ | _⟩⟩
  · exact Option.noConfusion h
  · simp only [tokenVal] at h
    split_ifs at h with hc
    simp only [Bool.and_eq_true, decide_eq_true_eq] at hc
    injection h with h
    omega
  · simp only [tokenVal] at h
    split_ifs at h with hc
    injection h with h
    omega
  · exact Option.noConfusion h

theorem specTok_range {s : List Char} {n : Nat} (h : specTok s = some n) :
    1 ≤ n ∧ n ≤ 10 := by
  obtain ⟨run, _, hrun⟩ := List.exists_of_findSome?_eq_some h
  exact tokenVal_range hrun

theorem take10_not_empty {pd : List MarketItem} (hpd : pd ≠ []) :
    (pd.take 10).isEmpty = false := by
  cases pd with
  | nil => exact absurd rfl hpd
  | cons a l => rfl

/-- The full behaviour of `_find_best_match_with_ai` on a non-empty
candidate list, expressed over the parsed first token. -/
theorem find_best_match_eq (pd : List MarketItem) (resp : Option (List Char))
    (hpd : pd ≠ []) :
    find_best_match_with_ai pd resp =
      match resp.bind firstRating with
      | some n =>
        if n - 1 < (pd.take 10).length then pd.get? (n - 1) else pd.head?
      | Option.none => pd.head? := by
  unfold find_best_match_with_ai
  rw [if_neg (by simp [take10_not_empty hpd])]
  cases resp with
  | none => rfl
  | some r =>
    dsimp only [Option.bind]
    cases hf : firstRating r with
    | none => rfl
    | some n =>
      dsimp only
      by_cases hidx : n - 1 < (pd.take 10).length
      · rw [if_pos hidx, if_pos hidx]
        have hlen : n - 1 < pd.length := by
          have := List.length_take 10 pd
          omega
        obtain ⟨item, hitem⟩ : ∃ item, pd.get? (n - 1) = some item :=
          ⟨_, List.get?_eq_get hlen⟩
        rw [hitem]
      · rw [if_neg hidx, if_neg hidx]

/-! ## Claim C7 -/

/-- **C7** (confirmed): for a non-empty candidate list, the resolver
returns the candidate indexed by the first integer token in [1,10] of
the response when that index is within the offered candidates
(`price_data[:10]`); on a failed call, a token-free response, or an index
beyond the offered candidates it falls back to the first candidate. -/
theorem claim_C7 (pd : List MarketItem) (resp : Option (List Char))
    (hpd : pd ≠ []) :
    (∀ s n, resp = some s → specTok s = some n → n ≤ (pd.take 10).length →
      find_best_match_with_ai pd resp = pd.get? (n - 1)) ∧
    (resp = Option.none → find_best_match_with_ai pd resp = pd.head?) ∧
    (∀ s, resp = some s → specTok s = Option.none →
      find_best_match_with_ai pd resp = pd.head?) ∧
    (∀ s n, resp = some s → specTok s = some n → (pd.take 10).length < n →
      find_best_match_with_ai pd resp = pd.head?) := by
  refine ⟨?_, ?_, ?_, ?_⟩
  · rintro s n rfl htok hle
    have h1 : 1 ≤ n := (specTok_range htok).1
    rw [find_best_match_eq pd _ hpd]
    dsimp only [Option.bind]
    rw [firstRating_eq_specTok, htok]
    dsimp only
    rw [if_pos (by omega)]
  · rintro rfl
    rw [find_best_match_eq pd _ hpd]
    rfl
  · rintro s rfl htok
    rw [find_best_match_eq pd _ hpd]
    dsimp only [Option.bind]
    rw [firstRating_eq_specTok, htok]
  · rintro s n rfl htok hgt
    rw [find_best_match_eq pd _ hpd]
    dsimp only [Option.bind]
    rw [firstRating_eq_specTok, htok]
    dsimp only
    rw [if_neg (by omega)]

/-- Witness for C7: two candidates, response `"2"` selects the second. -/
theorem claim_C7_witness :
    find_best_match_with_ai [itemA, itemB] (some "2".data) =
      [itemA, itemB].get? 1 :=
  (claim_C7 [itemA, itemB] (some "2".data) (by decide)).1 "2".data 2 rfl
    (by decide) (by decide)

/-! ## Facts about the stable descending sort -/

theorem insertDesc_mem (x a : ScoredDeal) :
    ∀ l, a ∈ insertDesc x l ↔ a = x ∨ a ∈ l := by
  intro l
  induction l with
  | nil => simp [insertDesc]
  | cons y ys ih =>
    rw [insertDesc]
    by_cases hlt : x.rating < y.rating
    · rw [if_pos hlt]
      simp only [List.mem_cons, ih]
      tauto
    · rw [if_neg hlt]
      simp only [List.mem_cons]

theorem insertDesc_pairwise (x : ScoredDeal) :
    ∀ l, l.Pairwise (fun a b => b.rating ≤ a.rating) →
      (insertDesc x l).Pairwise (fun a b => b.rating ≤ a.rating) := by
  intro l
  induction l with
  | nil => intro _; simp [insertDesc]
  | cons y ys ih =>
    intro hp
    obtain ⟨hy, hys⟩ := List.pairwise_cons.mp hp
    rw [insertDesc]
    by_cases hlt : x.rating < y.rating
    · rw [if_pos hlt]
      refine List.Pairwise.cons ?_ (ih hys)
      intro b hb
      rcases (insertDesc_mem x b ys).mp hb with rfl | hb'
      · omega
      · exact hy b hb'
    · rw [if_neg hlt]
      refine List.Pairwise.cons ?_ hp
      intro b hb
      rcases List.mem_cons.mp hb with rfl | hb'
      · omega
      · have := hy b hb'
        omega

theorem filter_insertDesc (k : Int) (x : ScoredDeal) :
    ∀ l, (insertDesc x l).filter (fun d => d.rating == k) =
      (if x.rating == k then x :: l.filter (fun d => d.rating == k)
       else l.filter (fun d => d.rating == k)) := by
  intro l
  induction l with
  | nil =>
    cases hx : x.rating == k <;> simp [insertDesc, List.filter_cons, hx]
  | cons y ys ih =>
    rw [insertDesc]
    by_cases hlt : x.rating < y.rating
    · rw [if_pos hlt, List.filter_cons]
      by_cases hx : x.rating = k
      · have hy : (y.rating == k) = false := by
          simp only [beq_eq_false_iff_ne, ne_eq]
          omega
        simp [hy, ih, hx, List.filter_cons]
      · simp only [ih, if_neg (by simpa using hx : ¬(x.rating == k) = true)]
        by_cases hyk : (y.rating == k) = true <;>
          simp [hyk, List.filter_cons]
    · rw [if_neg hlt, List.filter_cons]

theorem sort_results_filter (k : Int) :
    ∀ l, (sort_results l).filter (fun d => d.rating == k) =
      l.filter (fun d => d.rating == k) := by
  intro l
  induction l with
  | nil => rfl
  | cons x xs ih =>
    rw [sort_results, filter_insertDesc, ih, List.filter_cons]

theorem sort_results_sorted :
    ∀ l, (sort_results l).Pairwise (fun a b => b.rating ≤ a.rating) := by
  intro l
  induction l with
  | nil => simp [sort_results]
  | cons x xs ih =>
    rw [sort_results]
    exact insertDesc_pairwise x _ ih

/-! ## Claim C9 -/

/-- **C9** (confirmed): the final output is weakly descending on the
`rating` field, equal-rated deals keep their relative input order (the
per-rating subsequences are untouched), and the [5, 8, 5] example sorts
to [the 8, the first 5, the second 5]. -/
theorem claim_C9 :
    (∀ deals : List ScoredDeal,
      (sort_results deals).Pairwise (fun a b => b.rating ≤ a.rating) ∧
      ∀ k : Int, (sort_results deals).filter (fun d => d.rating == k) =
        deals.filter (fun d => d.rating == k)) ∧
    ∀ a b c : ScoredDeal, a.rating = 5 → b.rating = 8 → c.rating = 5 →
      sort_results [a, b, c] = [b, a, c] := by
  refine ⟨fun deals =>
    ⟨sort_results_sorted deals, fun k => sort_results_filter k deals⟩, ?_⟩
  intro a b c ha hb hc
  show insertDesc a (insertDesc b (insertDesc c [])) = [b, a, c]
  rw [show insertDesc c [] = [c] from rfl]
  rw [insertDesc, if_neg (by omega)]
  rw [insertDesc, if_pos (by omega)]
  rw [insertDesc, if_neg (by omega)]

/-- Witness for C9 at the concrete deals with ratings [5, 8, 5]. -/
theorem claim_C9_witness :
    sort_results [dealA, dealB, dealC] = [dealB, dealA, dealC] :=
  claim_C9.2 dealA dealB dealC rfl rfl rfl

end NanoPC
